import Mathlib

/-!
Verification of the cargo-tools test fixtures: a shallow embedding of
`test-rust-project-single-crate/src/lib.rs` (the `Config` / `CoreService`
core crate) and `test-rust-project/utils/src/lib.rs` (string and data
utilities), together with theorems settling the specification claims.

Conventions of the embedding:
* Rust `String` / `&str` become Lean `String` for the config fields and
  `List Char` (the sequence of Unicode scalar values, matching `str::chars`)
  for the character-level string utilities.
* `anyhow::Result<T>` becomes `Except String T`, the error holding the
  message passed to `anyhow::bail!`.
* `f64` values are modelled as exact rationals `ℚ`; the claims about data
  utilities concern the shape of the computation (sum divided by count,
  comparison against a threshold), which this preserves.
* `char::to_uppercase` from the Rust standard library (outside this
  repository) is a parameter `toUppercase : Char → List Char`: a character
  can expand to several characters, as in ß ↦ "SS".
-/

/-- `Config` from `test-rust-project-single-crate/src/lib.rs`. -/
structure Config where
  name : String
  version : String
deriving DecidableEq, Repr

/-- `impl Default for Config`: the fixed default value. -/
def Config.default : Config :=
  ⟨"cargo-tools-test", "0.1.0"⟩

/-- `CoreService` holds a `Config`. -/
structure CoreService where
  config : Config

/-- `CoreService::new`. -/
def CoreService.new (config : Config) : CoreService :=
  ⟨config⟩

/-- `CoreService::get_config`. -/
def CoreService.get_config (s : CoreService) : Config :=
  s.config

/-- `CoreService::process_data`: `Ok(format!("[{}] Processed: {}", name, data))`,
built here by explicit concatenation. -/
def CoreService.process_data (s : CoreService) (data : String) : Except String String :=
  .ok ("[" ++ s.config.name ++ "] Processed: " ++ data)

/-- `create_default_config` from the utils crate. -/
def create_default_config : Config :=
  Config.default

/-- `validate_config` from the utils crate: name checked first, then version. -/
def validate_config (config : Config) : Except String Unit :=
  if config.name.isEmpty then .error "Config name cannot be empty"
  else if config.version.isEmpty then .error "Config version cannot be empty"
  else .ok ()

/-- `strings::capitalize`, parametric in the standard library's
`char::to_uppercase` mapping: uppercase the first character (which may
expand to several characters) and append the rest unchanged. -/
def capitalize (toUppercase : Char → List Char) : List Char → List Char
  | [] => []
  | first :: rest => toUppercase first ++ rest

/-- `strings::reverse`: `s.chars().rev().collect()`, consuming the character
sequence from the back. -/
def reverse : List Char → List Char
  | [] => []
  | c :: rest => reverse rest ++ [c]

/-- Rust `char::is_whitespace`: membership in the Unicode White_Space set. -/
def isRustWhitespace (c : Char) : Bool :=
  (0x09 ≤ c.toNat && c.toNat ≤ 0x0D) || c.toNat == 0x20 || c.toNat == 0x85 ||
  c.toNat == 0xA0 || c.toNat == 0x1680 ||
  (0x2000 ≤ c.toNat && c.toNat ≤ 0x200A) || c.toNat == 0x2028 ||
  c.toNat == 0x2029 || c.toNat == 0x202F || c.toNat == 0x205F ||
  c.toNat == 0x3000

/-- Splitting a character list at every character satisfying `p`, keeping
empty pieces, as Rust `str::split` does: `""` yields one empty piece, and a
separator always contributes a piece boundary. -/
def splitCh (p : Char → Bool) : List Char → List (List Char)
  | [] => [[]]
  | c :: rest =>
    let r := splitCh p rest
    if p c then [] :: r else (c :: r.headI) :: r.tail

/-- `strings::word_count`: `s.split_whitespace().count()`, where
`split_whitespace` is split-on-whitespace with empty pieces discarded. -/
def word_count (s : List Char) : Nat :=
  ((splitCh isRustWhitespace s).filter fun t => !t.isEmpty).length

/-- `strings::validate_email`: `Ok(email.contains('@') && email.contains('.'))`. -/
def validate_email (email : List Char) : Except String Bool :=
  .ok (email.contains '@' && email.contains '.')

/-- `data::DataPoint`, with `f64` modelled as `ℚ`. -/
structure DataPoint where
  id : Nat
  value : ℚ
  label : String
deriving DecidableEq, Repr

/-- `data::process_data_points`: `0.0` on the empty slice, otherwise the sum
of the `value` fields divided by the length. -/
def process_data_points (points : List DataPoint) : Except String ℚ :=
  if points.isEmpty then .ok 0
  else .ok ((points.map fun p => p.value).sum / (points.length : ℚ))

/-- `data::filter_by_threshold`: keep exactly the points with
`value >= threshold`. -/
def filter_by_threshold (points : List DataPoint) (threshold : ℚ) : List DataPoint :=
  points.filter fun p => decide (p.value ≥ threshold)

/-- Formalisation of the spec's "number of maximal non-whitespace runs",
written independently of `splitCh`: scan left to right, counting the runs
entered; the flag records whether the scan is currently inside a run. -/
def countRuns : Bool → List Char → Nat
  | _, [] => 0
  | inRun, c :: rest =>
    if isRustWhitespace c then countRuns false rest
    else (if inRun then 0 else 1) + countRuns true rest

/-! ### Helper lemmas -/

/-- Joint invariant for `word_count`: the number of non-empty pieces of the
whitespace split is the number of maximal non-whitespace runs, and the same
with the first piece removed corresponds to being already inside a run. -/
theorem splitCh_filter_length_eq_countRuns (l : List Char) :
    (((splitCh isRustWhitespace l).filter fun t => !t.isEmpty).length
      = countRuns false l) ∧
    ((((splitCh isRustWhitespace l).tail).filter fun t => !t.isEmpty).length
      = countRuns true l) := by
  induction l with
  | nil => simp [splitCh, countRuns]
  | cons c rest ih =>
    by_cases h : isRustWhitespace c = true
    · simp [splitCh, countRuns, h, ih.1]
    · simp only [Bool.not_eq_true] at h
      simp [splitCh, countRuns, h, ih.2, Nat.add_comm]

/-! ### Claim theorems -/

/-- Claim C1: for every `Config` `c` and input string `t`,
`CoreService::new(c).process_data(t)` succeeds and returns exactly
`"[" ++ c.name ++ "] Processed: " ++ t`. -/
theorem process_data_eq (c : Config) (t : String) :
    (CoreService.new c).process_data t
      = .ok ("[" ++ c.name ++ "] Processed: " ++ t) := rfl

/-- Claim C2: `validate_config` fails with the name error exactly when the
name is empty, fails with the version error exactly when the name is
non-empty and the version is empty (so the name check wins when both are
empty), and succeeds exactly when both fields are non-empty. -/
theorem validate_config_cases (c : Config) :
    (validate_config c = .error "Config name cannot be empty" ↔ c.name = "") ∧
    (validate_config c = .error "Config version cannot be empty"
      ↔ c.name ≠ "" ∧ c.version = "") ∧
    (validate_config c = .ok () ↔ c.name ≠ "" ∧ c.version ≠ "") := by
  unfold validate_config
  by_cases h1 : c.name = "" <;> by_cases h2 : c.version = "" <;>
    simp [h1, h2, String.isEmpty_iff]

/-- Claim C3: `validate_email` always succeeds, and returns `true` exactly
when the string contains at least one `@` and at least one `.`, anywhere and
in any order; no further validation is applied. -/
theorem validate_email_iff (s : List Char) :
    (∃ b, validate_email s = .ok b) ∧
    (validate_email s = .ok true ↔ '@' ∈ s ∧ '.' ∈ s) := by
  refine ⟨⟨_, rfl⟩, ?_⟩
  simp [validate_email, List.contains, List.elem_iff]

/-- Claim C4: `process_data_points` always succeeds; on a non-empty sequence
it returns the sum of the `value` fields divided by the number of points,
and on the empty sequence it returns `0`. -/
theorem process_data_points_eq (pts : List DataPoint) :
    process_data_points pts
      = .ok (if pts = [] then 0
             else (pts.map fun p => p.value).sum / (pts.length : ℚ)) := by
  by_cases h : pts = [] <;> simp [process_data_points, h]

/-- Claim C5: `filter_by_threshold` returns exactly the elements with
`value ≥ threshold` as a filter, hence an order-preserving subsequence of
the input, and it is idempotent at the same threshold. -/
theorem filter_by_threshold_spec (pts : List DataPoint) (t : ℚ) :
    filter_by_threshold pts t = pts.filter (fun p => decide (t ≤ p.value)) ∧
    (filter_by_threshold pts t).Sublist pts ∧
    filter_by_threshold (filter_by_threshold pts t) t
      = filter_by_threshold pts t := by
  refine ⟨by simp [filter_by_threshold, ge_iff_le], ?_, ?_⟩
  · exact List.filter_sublist pts
  · simp [filter_by_threshold, List.filter_filter]

/-- Claim C6: for every uppercase mapping, `capitalize` of the empty string
is the empty string, and on a non-empty string it maps the first character
through the uppercase mapping and leaves the remainder unchanged. -/
theorem capitalize_eq (u : Char → List Char) :
    capitalize u [] = [] ∧
    ∀ (first : Char) (rest : List Char),
      capitalize u (first :: rest) = u first ++ rest :=
  ⟨rfl, fun _ _ => rfl⟩

/-- Claim C7: `reverse` returns the reversal of the character sequence. -/
theorem reverse_eq (s : List Char) : reverse s = s.reverse := by
  induction s with
  | nil => rfl
  | cons c rest ih => simp [reverse, ih]

/-- Claim C8: `word_count` returns the number of maximal non-whitespace
runs: it splits on any whitespace, collapses consecutive separators, and
leading or trailing whitespace contributes no tokens. -/
theorem word_count_eq_countRuns (s : List Char) :
    word_count s = countRuns false s :=
  (splitCh_filter_length_eq_countRuns s).1

/-- Claim C9: `Config::default()` is exactly
`{name := "cargo-tools-test", version := "0.1.0"}`, and processing `"x"`
with a default-configured service yields
`"[cargo-tools-test] Processed: x"`. -/
theorem default_config_spec :
    Config.default = ⟨"cargo-tools-test", "0.1.0"⟩ ∧
    (CoreService.new Config.default).process_data "x"
      = .ok "[cargo-tools-test] Processed: x" :=
  ⟨rfl, rfl⟩

/-- Claim C10: `capitalize` is idempotent for any uppercase mapping whose
expansions are non-empty and begin with a case-stable character (every
character maps to a string whose first character maps to itself), as the
Unicode uppercase mapping does — e.g. ß ↦ "SS" and S ↦ "S". -/
theorem capitalize_idem (u : Char → List Char)
    (hu : ∀ c, ∃ d rest, u c = d :: rest ∧ u d = [d]) (s : List Char) :
    capitalize u (capitalize u s) = capitalize u s := by
  cases s with
  | nil => rfl
  | cons c rest =>
    obtain ⟨d, ds, hcd, hd⟩ := hu c
    simp [capitalize, hcd, hd]

/-- Witness for C10: idempotence at a concrete mapping and string. -/
theorem capitalize_idem_witness :
    capitalize (fun _ => ['A']) (capitalize (fun _ => ['A']) ['h', 'i'])
      = capitalize (fun _ => ['A']) ['h', 'i'] :=
  capitalize_idem (fun _ => ['A']) (fun _ => ⟨'A', [], rfl, rfl⟩) ['h', 'i']
